import Mathlib

/-!
# Feed resolution, caching and event construction (`feed.go`)

A shallow embedding of `feed.go`: the feed resolver `getFeedURL`, the cached
fetcher `parseFeed`, the event builders `feedToSetMetadata` and
`itemToTextNote`, and the identity deriver `privateKeyFromFeed`.

Go strings are byte sequences: `len` counts bytes and `s[i:j]` slices bytes,
so a Go `string` is a `List UInt8` here.  Calls that leave the file (the HTTP
client, the HTML and feed parsers, `json.Marshal`, `Event.Serialize`, HMAC)
are parameters of the functions that make them; the clock read by
`time.Now()` is a parameter `now`.  The cache2go store behind `feedCache` is
modelled from the Feed Cache of the spec: bounded, with a time-to-live per
entry.  For the examples HMAC-SHA256 is defined after FIPS 180-4 and RFC 2104
and checked on their test vectors.  Definitions come first, theorems after
them.
-/

namespace Rsslay

/-! ## Strings -/

/-- A Go `string`: an immutable sequence of bytes. -/
abbrev GoString := List UInt8

/-- The string literal `"\n\n"`. -/
def blankLine : GoString := [10, 10]

/-- The string literal `"**"`. -/
def bold : GoString := [42, 42]

/-- The string literal `"…"` (U+2026), three bytes in UTF-8. -/
def ellipsis : GoString := [0xE2, 0x80, 0xA6]

/-- The bytes of an ASCII/UTF-8 literal, used to write the constants below. -/
def lit (s : String) : GoString := s.toUTF8.data.toList

/-- Go `strings.HasPrefix(s, prefix)`. -/
def stringsHasPrefix (s pre : GoString) : Bool := pre.isPrefixOf s

/-- Go `strings.Contains(s, substr)`: `substr` occurs at some offset of `s`. -/
def stringsContains : GoString → GoString → Bool
  | [], sub => sub.isEmpty
  | c :: s, sub => sub.isPrefixOf (c :: s) || stringsContains s sub

/-- Go slice expression `s[lo:hi]` on a string (in bounds). -/
def slice (s : GoString) (lo hi : Nat) : GoString := (s.drop lo).take (hi - lo)

/-! ## Time and events -/

/-- A `time.Time`, as far as this file reads it: `Unix()` returns `unixSec`. -/
structure Time where
  unixSec : Int
  nsec : Nat
  deriving DecidableEq, Repr

/-- Go `t.Unix()`. -/
def Time.Unix (t : Time) : Int := t.unixSec

/-- Go conversion `uint32(x)` of an `int64`: the low 32 bits. -/
def toUint32 (x : Int) : Nat := (x % 2 ^ 32).toNat

/-- The `event.Event` of go-nostr: `CreatedAt` is a `uint32`, `Kind` a `uint8`. -/
structure Event where
  ID : GoString := []
  PubKey : GoString := []
  CreatedAt : Nat := 0
  Kind : Nat := 0
  Tags : List (List GoString) := []
  Content : GoString := []
  Sig : GoString := []
  deriving DecidableEq, Repr

/-- Constant `event.KindSetMetadata`. -/
def KindSetMetadata : Nat := 0

/-- Constant `event.KindTextNote`. -/
def KindTextNote : Nat := 1

/-! ## Parsed feeds (`gofeed.Feed`, `gofeed.Item`, `gofeed.Image`) -/

/-- The fields of `gofeed.Item` that `feed.go` reads or writes. -/
structure Item where
  Title : GoString := []
  Description : GoString := []
  Content : GoString := []
  Link : GoString := []
  UpdatedParsed : Option Time := none
  PublishedParsed : Option Time := none
  GUID : GoString := []
  deriving DecidableEq, Repr

/-- The `gofeed.Image` behind `feed.Image`. -/
structure Image where
  URL : GoString := []
  Title : GoString := []
  deriving DecidableEq, Repr

/-- The fields of `gofeed.Feed` that `feed.go` reads or writes. -/
structure Feed where
  Title : GoString := []
  Description : GoString := []
  Link : GoString := []
  FeedLink : GoString := []
  Image : Option Image := none
  PublishedParsed : Option Time := none
  Items : List Item := []
  deriving DecidableEq, Repr

/-! ## `itemToTextNote` -/

/-- Lines 121-129 of `itemToTextNote`: the content string of a text note. -/
def itemContent (item : Item) : GoString :=
  let content : GoString := []
  let content := if item.Title ≠ [] then bold ++ item.Title ++ bold ++ blankLine else content
  let content := content ++ item.Description
  let content :=
    if content.length > 250 then content ++ (slice content 0 249 ++ ellipsis) else content
  content ++ (blankLine ++ item.Link)

/-- Lines 131-137 of `itemToTextNote`: the time the note is stamped with. -/
def itemCreatedAt (item : Item) (now : Time) : Time :=
  let createdAt := now
  let createdAt := match item.UpdatedParsed with
    | some t => t
    | none => createdAt
  let createdAt := match item.PublishedParsed with
    | some t => t
    | none => createdAt
  createdAt

/-- Go `itemToTextNote(pubkey, item)`; `serialize` is `Event.Serialize`. -/
def itemToTextNote (serialize : Event → GoString) (now : Time) (pubkey : GoString)
    (item : Item) : Event :=
  let content := itemContent item
  let createdAt := itemCreatedAt item now
  let evt : Event :=
    { PubKey := pubkey
      CreatedAt := toUint32 createdAt.Unix
      Kind := KindTextNote
      Tags := []
      Content := content }
  { evt with ID := serialize evt }

/-- The text of an item before truncation and link: bold title, then description. -/
def itemText (item : Item) : GoString :=
  (if item.Title ≠ [] then bold ++ item.Title ++ bold ++ blankLine else []) ++ item.Description

/-- The item of the truncation test: no title, a description of 300 bytes. -/
def longItem : Item :=
  { Description := List.replicate 300 97, Link := lit "http://example.com/a" }

/-! ## `feedToSetMetadata` -/

/-- A Go `map[string]string`: at most one value per key. -/
abbrev GoMap := List (GoString × GoString)

/-- Go `m[k] = v`: overwrite the value of `k`, or add the key. -/
def mapSet : GoMap → GoString → GoString → GoMap
  | [], k, v => [(k, v)]
  | (k0, v0) :: rest, k, v =>
    if k0 = k then (k, v) :: rest else (k0, v0) :: mapSet rest k v

/-- Go `v, ok := m[k]`. -/
def mapGet : GoMap → GoString → Option GoString
  | [], _ => none
  | (k0, v0) :: rest, k => if k0 = k then some v0 else mapGet rest k

/-- Lines 94-100 of `feedToSetMetadata`: the metadata map. -/
def feedMetadata (feed : Feed) : GoMap :=
  let metadata : GoMap :=
    mapSet (mapSet [] (lit "name") feed.Title) (lit "about")
      (feed.Description ++ blankLine ++ feed.Link)
  match feed.Image with
  | some image => mapSet metadata (lit "picture") image.URL
  | none => metadata

/-- Lines 103-106 of `feedToSetMetadata`. -/
def feedCreatedAt (feed : Feed) (now : Time) : Time :=
  match feed.PublishedParsed with
  | some t => t
  | none => now

/-- Go `feedToSetMetadata(pubkey, feed)`; `jsonMarshal` is `json.Marshal` on a
`map[string]string` (it cannot fail there) and `serialize` is `Event.Serialize`. -/
def feedToSetMetadata (jsonMarshal : GoMap → GoString) (serialize : Event → GoString)
    (now : Time) (pubkey : GoString) (feed : Feed) : Event :=
  let metadata := feedMetadata feed
  let content := jsonMarshal metadata
  let createdAt := feedCreatedAt feed now
  let evt : Event :=
    { PubKey := pubkey
      CreatedAt := toUint32 createdAt.Unix
      Kind := KindSetMetadata
      Tags := []
      Content := content }
  { evt with ID := serialize evt }

/-! ## Message identifiers -/

/-- The five fields an identifier is computed over. -/
def idFields (e : Event) : GoString × Nat × Nat × List (List GoString) × GoString :=
  (e.PubKey, e.CreatedAt, e.Kind, e.Tags, e.Content)

/-- A number written as that many `1` bytes closed by a `0` byte. -/
def encNat (n : Nat) : GoString := List.replicate n 1 ++ [0]

/-- A string written as its length, then its bytes. -/
def encString (s : GoString) : GoString := encNat s.length ++ s

/-- A tag: the number of its strings, then each string. -/
def encTag (tag : List GoString) : GoString :=
  encNat tag.length ++ (tag.map encString).flatten

/-- A tag list: the number of tags, then each tag. -/
def encTags (tags : List (List GoString)) : GoString :=
  encNat tags.length ++ (tags.map encTag).flatten

/-- A serialization for the examples, in place of the `Event.Serialize` of go-nostr: the
five fields in order, each self-delimiting. -/
def serializeFields (e : Event) : GoString :=
  encString e.PubKey ++ (encNat e.CreatedAt ++ (encNat e.Kind ++
    (encTags e.Tags ++ encString e.Content)))

/-! ## `privateKeyFromFeed` -/

/-- The `hash.Hash` returned by `hmac.New(sha256.New, key)`: the key and the bytes
written so far. -/
structure HMAC where
  key : GoString
  written : GoString
  deriving DecidableEq, Repr

/-- Go `hmac.New(sha256.New, key)`. -/
def hmacNew (key : GoString) : HMAC := { key := key, written := [] }

/-- Go `m.Write(p)`: more bytes of the message. -/
def HMAC.Write (m : HMAC) (p : GoString) : HMAC := { m with written := m.written ++ p }

/-- Go `m.Sum(b)`: `b` followed by the tag of what was written; `hmacSHA256 key msg`
is the HMAC-SHA256 tag. -/
def HMAC.Sum (hmacSHA256 : GoString → GoString → GoString) (m : HMAC) (b : GoString) :
    GoString :=
  b ++ hmacSHA256 m.key m.written

/-- The digits of `encoding/hex`. -/
def hextable : GoString := lit "0123456789abcdef"

/-- Go `hex.EncodeToString(src)`: two digits per byte, high nibble first. -/
def hexEncodeToString (src : GoString) : GoString :=
  src.flatMap fun v =>
    [hextable.getD (v.toNat >>> 4) 0, hextable.getD (v.toNat &&& 0x0f) 0]

/-! ## The feed cache -/

/-- A `time.Duration`, in nanoseconds. -/
abbrev Duration := Int

/-- Constant `time.Minute`. -/
def minute : Duration := 60 * 1000000000

/-- Go `t.UnixNano()`, the instant as one number. -/
def Time.UnixNano (t : Time) : Int := t.unixSec * 1000000000 + t.nsec

/-- Go `t.Sub(u)`. -/
def Time.Sub (t u : Time) : Duration := t.UnixNano - u.UnixNano

/-- Modelled from the spec: a Cache Entry, the association of a feed URL to a Parsed
Feed plus an insertion timestamp (the cache2go package is not in `feed.go`). -/
structure CacheEntry where
  key : GoString
  value : Feed
  insertedAt : Time
  deriving DecidableEq, Repr

/-- Modelled from the spec: the Feed Cache of the cache2go package, which is not in
`feed.go`: a bounded associative store with a capacity and a fixed time-to-live per
entry measured from insertion.  Entries are kept newest first. -/
structure Cache where
  maxEntries : Nat
  expiration : Duration
  entries : List CacheEntry
  deriving DecidableEq, Repr

/-- Modelled from the spec: `cache2go.New(maxEntries, expiration)`, an empty cache. -/
def cacheNew (maxEntries : Nat) (expiration : Duration) : Cache :=
  { maxEntries := maxEntries, expiration := expiration, entries := [] }

/-- Modelled from the spec: `get(key)` of the Feed Cache at time `now`: a miss on an
absent key and on an entry older than the time-to-live, else the stored value. -/
def Cache.Get (c : Cache) (now : Time) (key : GoString) : Option Feed :=
  match c.entries.find? (fun e => e.key = key) with
  | some e => if now.Sub e.insertedAt > c.expiration then none else some e.value
  | none => none

/-- Modelled from the spec: `put(key, value)` of the Feed Cache at time `now`: always
succeeds, inserting or overwriting, and evicts the oldest-inserted entries beyond the
capacity. -/
def Cache.Set (c : Cache) (now : Time) (key : GoString) (value : Feed) : Cache :=
  { c with
    entries :=
      (({ key := key, value := value, insertedAt := now } : CacheEntry) ::
        c.entries.filter (fun e => e.key ≠ key)).take c.maxEntries }

/-- The package-level state of `feed.go`: `feedCache` and the secret `b.Secret`. -/
structure Process where
  Secret : GoString
  feedCache : Cache
  deriving DecidableEq, Repr

/-- Line 20: `var feedCache = cache2go.New(512, time.Minute*19)`. -/
def feedCacheInit : Cache := cacheNew 512 (minute * 19)

/-- A Go `error`, by its message. -/
abbrev GoError := GoString

/-! ## `parseFeed` -/

/-- The assignment `feed.Items[i].Content = ""`. -/
def clearContentAt (items : List Item) (i : Nat) : List Item :=
  match items[i]? with
  | some item => items.set i { item with Content := [] }
  | none => items

/-- Lines 85-87: `for i, _ := range feed.Items { feed.Items[i].Content = "" }`. -/
def clearContents (items : List Item) : List Item :=
  (List.range items.length).foldl clearContentAt items

/-- What one call of `parseFeed` yields: its two results, the state of the process
afterwards, and the URLs it fetched from the network. -/
structure ParseOutcome where
  result : Except GoError Feed
  process : Process
  fetched : List GoString

/-- Go `parseFeed(url)` at time `now`; `parseURL` is `fp.ParseURL`, the network fetch
and parse of the feed document. -/
def parseFeed (parseURL : Time → GoString → Except GoError Feed) (p : Process) (now : Time)
    (url : GoString) : ParseOutcome :=
  match p.feedCache.Get now url with
  | some feed => { result := .ok feed, process := p, fetched := [] }
  | none =>
    match parseURL now url with
    | .error err => { result := .error err, process := p, fetched := [url] }
    | .ok feed =>
      let feed := { feed with Items := clearContents feed.Items }
      { result := .ok feed
        process := { p with feedCache := p.feedCache.Set now url feed }
        fetched := [url] }

/-- The spec's wording of the stripping: the content of every item set to empty. -/
def stripFeed (feed : Feed) : Feed :=
  { feed with Items := feed.Items.map fun item => { item with Content := [] } }

/-- Go `privateKeyFromFeed(url)`; reads `b.Secret` from the process. -/
def privateKeyFromFeed (hmacSHA256 : GoString → GoString → GoString) (p : Process)
    (url : GoString) : GoString :=
  let m := hmacNew p.Secret
  let m := m.Write url
  let r := m.Sum hmacSHA256 []
  hexEncodeToString r

/-! ## `getFeedURL` -/

/-- Lines 30-34: `var types`. -/
def types : List GoString := [lit "rss+xml", lit "atom+xml", lit "feed+json"]

/-- An `http.Response`, as far as `getFeedURL` reads it; `ContentType` is
`resp.Header.Get("Content-Type")`. -/
structure Response where
  StatusCode : Int
  ContentType : GoString
  Body : GoString
  deriving DecidableEq, Repr

/-- An element of a parsed HTML page: its tag name and attributes. -/
structure Node where
  tag : GoString
  attrs : List (GoString × GoString)
  deriving DecidableEq, Repr

/-- A `goquery.Document`: the elements of the page in document order. -/
abbrev Document := List Node

/-- The value of attribute `name` of an element, when it has one. -/
def Node.attr (n : Node) (name : GoString) : Option GoString :=
  (n.attrs.find? (fun a => a.1 = name)).map (fun a => a.2)

/-- Go `doc.Find(fmt.Sprintf("link[type*='%s']", typ))`: the `link` elements whose
`type` attribute contains `typ`, in document order. -/
def findLinks (doc : Document) (typ : GoString) : List Node :=
  doc.filter fun n =>
    n.tag = lit "link" &&
      match n.attr (lit "type") with
      | some v => stringsContains v typ
      | none => false

/-- Go `sel.Attr(name)`: the attribute of the first element of the selection. -/
def selectionAttr (sel : List Node) (name : GoString) : GoString × Bool :=
  match sel with
  | [] => ([], false)
  | n :: _ =>
    match n.attr name with
    | some v => (v, true)
    | none => ([], false)

/-- What `getFeedURL` calls outside the file: `client.Head`, `http.Get`,
`goquery.NewDocumentFromReader` and the helper `urljoin`. -/
structure Web where
  head : GoString → Except GoError Response
  get : GoString → Except GoError Response
  newDocument : GoString → Except GoError Document
  urljoin : GoString → GoString → GoString × Option GoError

/-- A `for _, x := range xs` loop whose body may `return`: the value returned by the
first iteration that returns, if any. -/
def forRange {α β : Type} : List α → (α → Option β) → Option β
  | [], _ => none
  | x :: rest, body =>
    match body x with
    | some r => some r
    | none => forRange rest body

/-- Lines 60-67: the body of the second loop of `getFeedURL`; every path returns. -/
def linkBody (web : Web) (url : GoString) (doc : Document) (typ : GoString) :
    Option GoString :=
  let href := (selectionAttr (findLinks doc typ) (lit "href")).1
  if href = [] then some []
  else
    let href := if !stringsHasPrefix href (lit "http") then (web.urljoin url href).1 else href
    some href

/-- Go `getFeedURL(url)`; the empty string is the absent result. -/
def getFeedURL (web : Web) (url : GoString) : GoString :=
  match web.head url with
  | .error _ => []
  | .ok resp =>
    if resp.StatusCode ≥ 300 then []
    else
      let ct := resp.ContentType
      match forRange types (fun typ => if stringsContains ct typ then some url else none) with
      | some r => r
      | none =>
        if stringsContains ct (lit "text/html") then
          match web.get url with
          | .error _ => []
          | .ok resp =>
            if resp.StatusCode ≥ 300 then []
            else
              match web.newDocument resp.Body with
              | .error _ => []
              | .ok doc =>
                match forRange types (linkBody web url doc) with
                | some r => r
                | none => []
        else []

/-- The messages `feed.go` builds: the results of `feedToSetMetadata` and of
`itemToTextNote`. -/
def BuiltMessage (jsonMarshal : GoMap → GoString) (serialize : Event → GoString)
    (m : Event) : Prop :=
  (∃ now pubkey feed, m = feedToSetMetadata jsonMarshal serialize now pubkey feed) ∨
    (∃ now pubkey item, m = itemToTextNote serialize now pubkey item)

/-! ## Sample inputs -/

/-! ### HMAC-SHA256 (FIPS 180-4, RFC 2104), the function behind `hmac.New(sha256.New, key)` -/

/-- Addition of 32-bit words. -/
def add32 (a b : Nat) : Nat := (a + b) % 4294967296

/-- Rotation of a 32-bit word to the right. -/
def rotr (w k : Nat) : Nat := (w <<< (32 - k) ||| w >>> k) % 4294967296

/-- The round constants of SHA-256. -/
def sha256K : List Nat := [
  0x428a2f98, 0x71374491, 0xb5c0fbcf, 0xe9b5dba5, 0x3956c25b, 0x59f111f1, 0x923f82a4, 0xab1c5ed5,
  0xd807aa98, 0x12835b01, 0x243185be, 0x550c7dc3, 0x72be5d74, 0x80deb1fe, 0x9bdc06a7, 0xc19bf174,
  0xe49b69c1, 0xefbe4786, 0x0fc19dc6, 0x240ca1cc, 0x2de92c6f, 0x4a7484aa, 0x5cb0a9dc, 0x76f988da,
  0x983e5152, 0xa831c66d, 0xb00327c8, 0xbf597fc7, 0xc6e00bf3, 0xd5a79147, 0x06ca6351, 0x14292967,
  0x27b70a85, 0x2e1b2138, 0x4d2c6dfc, 0x53380d13, 0x650a7354, 0x766a0abb, 0x81c2c92e, 0x92722c85,
  0xa2bfe8a1, 0xa81a664b, 0xc24b8b70, 0xc76c51a3, 0xd192e819, 0xd6990624, 0xf40e3585, 0x106aa070,
  0x19a4c116, 0x1e376c08, 0x2748774c, 0x34b0bcb5, 0x391c0cb3, 0x4ed8aa4a, 0x5b9cca4f, 0x682e6ff3,
  0x748f82ee, 0x78a5636f, 0x84c87814, 0x8cc70208, 0x90befffa, 0xa4506ceb, 0xbef9a3f7, 0xc67178f2]

/-- The initial hash value of SHA-256. -/
def sha256Init : List Nat :=
  [0x6a09e667, 0xbb67ae85, 0x3c6ef372, 0xa54ff53a, 0x510e527f, 0x9b05688c, 0x1f83d9ab, 0x5be0cd19]

/-- The big-endian 32-bit words of a block of bytes. -/
def wordsOf : List Nat → List Nat
  | a :: b :: c :: d :: rest => (a * 16777216 + b * 65536 + c * 256 + d) :: wordsOf rest
  | _ => []

/-- The message schedule, newest word first: `n` more words after those of `rev`. -/
def sha256Extend : Nat → List Nat → List Nat
  | 0, rev => rev
  | n + 1, rev =>
    let w2 := rev.getD 1 0
    let w7 := rev.getD 6 0
    let w15 := rev.getD 14 0
    let w16 := rev.getD 15 0
    let s0 := (rotr w15 7) ^^^ (rotr w15 18) ^^^ (w15 >>> 3)
    let s1 := (rotr w2 17) ^^^ (rotr w2 19) ^^^ (w2 >>> 10)
    sha256Extend n (add32 (add32 (add32 w16 s0) w7) s1 :: rev)

/-- The eight working variables of SHA-256. -/
structure SHA256State where
  a : Nat
  b : Nat
  c : Nat
  d : Nat
  e : Nat
  f : Nat
  g : Nat
  h : Nat

/-- One round of the compression function, on a round constant and a schedule word. -/
def sha256Round (s : SHA256State) (kw : Nat × Nat) : SHA256State :=
  let S1 := (rotr s.e 6) ^^^ (rotr s.e 11) ^^^ (rotr s.e 25)
  let ch := (s.e &&& s.f) ^^^ ((4294967295 - s.e) &&& s.g)
  let t1 := add32 (add32 (add32 (add32 s.h S1) ch) kw.1) kw.2
  let S0 := (rotr s.a 2) ^^^ (rotr s.a 13) ^^^ (rotr s.a 22)
  let maj := (s.a &&& s.b) ^^^ (s.a &&& s.c) ^^^ (s.b &&& s.c)
  let t2 := add32 S0 maj
  ⟨add32 t1 t2, s.a, s.b, s.c, add32 s.d t1, s.e, s.f, s.g⟩

/-- The compression function: the hash value after one more 64-byte block. -/
def sha256Compress (h : List Nat) (block : List Nat) : List Nat :=
  let w := (sha256Extend 48 (wordsOf block).reverse).reverse
  let s0 : SHA256State :=
    ⟨h.getD 0 0, h.getD 1 0, h.getD 2 0, h.getD 3 0, h.getD 4 0, h.getD 5 0, h.getD 6 0,
      h.getD 7 0⟩
  let s := (sha256K.zip w).foldl sha256Round s0
  [add32 s0.a s.a, add32 s0.b s.b, add32 s0.c s.c, add32 s0.d s.d,
   add32 s0.e s.e, add32 s0.f s.f, add32 s0.g s.g, add32 s0.h s.h]

/-- The `k` low bytes of `n`, most significant first. -/
def bigEndian (n k : Nat) : List Nat := (List.range k).reverse.map fun i => (n >>> (8 * i)) % 256

/-- The padding of SHA-256: a `0x80` byte, zeros, and the bit length on 8 bytes. -/
def sha256Pad (msg : List Nat) : List Nat :=
  msg ++ [0x80] ++ List.replicate ((119 - msg.length % 64) % 64) 0 ++
    bigEndian (8 * msg.length) 8

/-- The first `n` blocks of 64 bytes. -/
def sha256Blocks : Nat → List Nat → List (List Nat)
  | 0, _ => []
  | n + 1, bs => bs.take 64 :: sha256Blocks n (bs.drop 64)

/-- The SHA-256 digest of a byte string, 32 bytes. -/
def sha256 (msg : GoString) : GoString :=
  let padded := sha256Pad (msg.map UInt8.toNat)
  let h := (sha256Blocks (padded.length / 64) padded).foldl sha256Compress sha256Init
  (h.flatMap fun w => bigEndian w 4).map UInt8.ofNat

/-- The HMAC-SHA256 tag of `msg` under `key` (RFC 2104, block size 64). -/
def hmacSHA256Tag (key msg : GoString) : GoString :=
  let k := if key.length > 64 then sha256 key else key
  let k := k ++ List.replicate (64 - k.length) 0
  sha256 (k.map (fun b => b ^^^ 0x5c) ++ sha256 (k.map (fun b => b ^^^ 0x36) ++ msg))

/-! ### Items, feeds and processes -/

/-- An item published at 2021-01-01T00:00:00Z and updated a day later. -/
def publishedItem : Item :=
  { Title := lit "Hello", Description := lit "first post", Link := lit "http://example.com/1"
    PublishedParsed := some { unixSec := 1609459200, nsec := 0 }
    UpdatedParsed := some { unixSec := 1609545600, nsec := 0 } }

/-- The same item with no published time. -/
def updatedItem : Item := { publishedItem with PublishedParsed := none }

/-- The same item with no time at all. -/
def undatedItem : Item := { updatedItem with UpdatedParsed := none }

/-- An item published at 2106-02-07T06:28:16Z, which is 2^32 seconds after the epoch. -/
def item2106 : Item :=
  { publishedItem with PublishedParsed := some { unixSec := 4294967296, nsec := 0 } }

/-- An item published at 1969-12-31T23:59:59Z, one second before the epoch. -/
def item1969 : Item :=
  { publishedItem with PublishedParsed := some { unixSec := -1, nsec := 0 } }

/-- A sample instant, 2021-01-01T00:00:00Z. -/
def sampleTime : Time := { unixSec := 1609459200, nsec := 0 }

/-- A sample item. -/
def sampleItem : Item :=
  { Title := lit "Hello", Description := lit "first post", Content := lit "<p>first post</p>",
    Link := lit "http://example.com/1", PublishedParsed := some sampleTime }

/-- The sample item with another description. -/
def sampleItem2 : Item := { sampleItem with Description := lit "second post" }

/-- A sample feed of two items, with an image. -/
def sampleFeed : Feed :=
  { Title := lit "Example", Description := lit "An example feed",
    Link := lit "http://example.com/", Image := some { URL := lit "http://example.com/i.png" },
    Items := [sampleItem, sampleItem2] }

/-- A sample process with an empty feed cache. -/
def sampleProcess : Process := { Secret := lit "s3cret", feedCache := feedCacheInit }

/-- The sample process with the same secret and the sample feed in its cache. -/
def sampleProcess2 : Process :=
  { sampleProcess with
    feedCache := feedCacheInit.Set sampleTime (lit "http://example.com/feed") sampleFeed }

/-- A process whose secret is the key of test case 2 of RFC 4231. -/
def jefeProcess : Process := { Secret := lit "Jefe", feedCache := feedCacheInit }

/-- The same secret with the sample feed in the cache. -/
def jefeProcess2 : Process :=
  { jefeProcess with
    feedCache := feedCacheInit.Set sampleTime (lit "http://example.com/feed") sampleFeed }

/-- The data of test case 2 of RFC 4231. -/
def jefeData : GoString := lit "what do ya want for nothing?"

/-- A sample URL. -/
def sampleURL : GoString := lit "http://example.com/feed"

/-- A web where every HEAD answers 200 with an RSS content type. -/
def sampleWebRSS : Web :=
  { head := fun _ =>
      .ok { StatusCode := 200, ContentType := lit "application/rss+xml; charset=utf-8",
            Body := [] }
    get := fun _ => .error (lit "unreachable")
    newDocument := fun _ => .error (lit "no document")
    urljoin := fun base ref => (base ++ ref, none) }

/-- A web where every HEAD answers 404. -/
def sampleWeb404 : Web :=
  { sampleWebRSS with
    head := fun _ => .ok { StatusCode := 404, ContentType := lit "text/plain", Body := [] } }

/-- A page whose only feed link is an Atom link with an href. -/
def sampleAtomPage : Document :=
  [{ tag := lit "title", attrs := [] },
   { tag := lit "link",
     attrs := [(lit "rel", lit "alternate"), (lit "type", lit "application/atom+xml"),
               (lit "href", lit "/atom.xml")] }]

/-- A web where every URL is an HTML page parsed as `sampleAtomPage`. -/
def sampleWebHTML : Web :=
  { head := fun _ =>
      .ok { StatusCode := 200, ContentType := lit "text/html; charset=utf-8", Body := [] }
    get := fun _ =>
      .ok { StatusCode := 200, ContentType := lit "text/html; charset=utf-8",
            Body := lit "<html>" }
    newDocument := fun _ => .ok sampleAtomPage
    urljoin := fun base ref => (base ++ ref, none) }

/-- A feed parser that yields the sample feed for every URL. -/
def sampleParseURL (_ : Time) (_ : GoString) : Except GoError Feed := .ok sampleFeed

/-- An instant 18 minutes after `sampleTime`. -/
def sampleTimeLater : Time := { unixSec := 1609459200 + 18 * 60, nsec := 0 }

set_option maxRecDepth 100000

/-! ## Checks of the literals -/

theorem lit_blankLine : lit "\n\n" = blankLine := by decide

theorem lit_bold : lit "**" = bold := by decide

theorem lit_ellipsis : lit "…" = ellipsis := by decide

/-! ## `itemToTextNote`: content -/

theorem slice_zero (s : GoString) (n : Nat) : slice s 0 n = s.take n := by
  simp [slice]

/-- What lines 121-129 compute: over 250 bytes the text is kept whole and its
first 249 bytes and an ellipsis are appended to it. -/
theorem itemContent_eq (item : Item) :
    itemContent item =
      if 250 < (itemText item).length then
        itemText item ++ ((itemText item).take 249 ++ ellipsis) ++ (blankLine ++ item.Link)
      else itemText item ++ (blankLine ++ item.Link) := by
  unfold itemContent itemText
  simp only [slice_zero, List.nil_append, gt_iff_lt]
  split <;> split <;> simp_all

/-- C1 (fails on the code): for the item with no title and a 300-byte description the
text is longer than 250, yet the content before the blank line and link is the whole
300-byte description followed by its first 249 bytes and the ellipsis, 552 bytes, and
not the first 249 bytes followed by the ellipsis. -/
theorem itemToTextNote_truncation_appends :
    ∀ (serialize : Event → GoString) (now : Time) (pubkey : GoString),
      250 < (itemText longItem).length ∧
      (itemToTextNote serialize now pubkey longItem).Content =
        List.replicate 300 97 ++ (List.replicate 249 97 ++ ellipsis) ++
          (blankLine ++ longItem.Link) ∧
      (List.replicate 300 97 ++ (List.replicate 249 97 ++ ellipsis) : GoString).length = 552 ∧
      (itemToTextNote serialize now pubkey longItem).Content ≠
        (itemText longItem).take 249 ++ ellipsis ++ (blankLine ++ longItem.Link) := by
  intro serialize now pubkey
  have htext : itemText longItem = List.replicate 300 97 := rfl
  have htake : (List.replicate 300 97 : GoString).take 249 = List.replicate 249 97 := by
    rw [List.take_replicate]; rfl
  have hc : (itemToTextNote serialize now pubkey longItem).Content =
      List.replicate 300 97 ++ (List.replicate 249 97 ++ ellipsis) ++
        (blankLine ++ longItem.Link) := by
    show itemContent longItem = _
    rw [itemContent_eq, htext, htake, List.length_replicate, if_pos (by decide)]
  have hlen : (List.replicate 300 97 ++ (List.replicate 249 97 ++ ellipsis) : GoString).length
      = 552 := by
    rw [List.length_append, List.length_append, List.length_replicate, List.length_replicate]
    rfl
  refine ⟨?_, hc, hlen, ?_⟩
  · rw [htext, List.length_replicate]; decide
  · rw [hc, htext, htake]
    intro h
    have h2 := List.append_cancel_right h
    have h3 := congrArg List.length h2
    rw [hlen, List.length_append, List.length_replicate] at h3
    revert h3
    decide

/-- C2: the content of every text note ends with a blank line followed by the whole
link of the item. -/
theorem itemToTextNote_ends_with_link (serialize : Event → GoString) (now : Time)
    (pubkey : GoString) (item : Item) :
    (blankLine ++ item.Link) <:+ (itemToTextNote serialize now pubkey item).Content := by
  show (blankLine ++ item.Link) <:+ itemContent item
  rw [itemContent_eq]
  split <;> exact List.suffix_append _ _

/-- The `uint32` conversion, as a number: the residue modulo 2^32. -/
theorem toUint32_cast (x : Int) : ((toUint32 x : Nat) : Int) = x % 2 ^ 32 := by
  unfold toUint32
  exact Int.toNat_of_nonneg (Int.emod_nonneg x (by norm_num))

/-- C3 (fails as stated): an item published 2^32 seconds after the epoch, in 2106, is
stamped 0, and an item published one second before the epoch is stamped 2^32 - 1:
neither stamp is the published time of the item. -/
theorem itemToTextNote_createdAt_wraps :
    item2106.PublishedParsed = some { unixSec := 4294967296, nsec := 0 } ∧
      (itemToTextNote serializeFields sampleTime (lit "ab") item2106).CreatedAt = 0 ∧
      ((itemToTextNote serializeFields sampleTime (lit "ab") item2106).CreatedAt : Int) ≠
        4294967296 ∧
      item1969.PublishedParsed = some { unixSec := -1, nsec := 0 } ∧
      (itemToTextNote serializeFields sampleTime (lit "ab") item1969).CreatedAt = 4294967295 ∧
      ((itemToTextNote serializeFields sampleTime (lit "ab") item1969).CreatedAt : Int) ≠ -1 := by
  decide

/-- C3 (amended): the stamp of a note is the Unix seconds, modulo 2^32, of the published
time when there is one, else of the updated time when there is one, else of the current
time; when those seconds lie in [0, 2^32) the stamp is exactly them. -/
theorem itemToTextNote_createdAt (serialize : Event → GoString) (now : Time)
    (pubkey : GoString) (item : Item) :
    ((itemToTextNote serialize now pubkey item).CreatedAt : Int) =
        (match item.PublishedParsed, item.UpdatedParsed with
          | some published, _ => published
          | none, some updated => updated
          | none, none => now).unixSec % 2 ^ 32 ∧
      (∀ published, item.PublishedParsed = some published →
        0 ≤ published.unixSec → published.unixSec < 2 ^ 32 →
        ((itemToTextNote serialize now pubkey item).CreatedAt : Int) = published.unixSec) ∧
      (∀ updated, item.PublishedParsed = none → item.UpdatedParsed = some updated →
        0 ≤ updated.unixSec → updated.unixSec < 2 ^ 32 →
        ((itemToTextNote serialize now pubkey item).CreatedAt : Int) = updated.unixSec) ∧
      (item.PublishedParsed = none → item.UpdatedParsed = none →
        0 ≤ now.unixSec → now.unixSec < 2 ^ 32 →
        ((itemToTextNote serialize now pubkey item).CreatedAt : Int) = now.unixSec) := by
  have hstamp : ((itemToTextNote serialize now pubkey item).CreatedAt : Int) =
      (itemCreatedAt item now).unixSec % 2 ^ 32 :=
    toUint32_cast (itemCreatedAt item now).Unix
  refine ⟨?_, ?_, ?_, ?_⟩
  · rw [hstamp]
    unfold itemCreatedAt
    cases item.PublishedParsed <;> cases item.UpdatedParsed <;> rfl
  · intro published hp h0 h1
    rw [hstamp]
    unfold itemCreatedAt
    rw [hp]
    exact Int.emod_eq_of_lt h0 h1
  · intro updated hp hu h0 h1
    rw [hstamp]
    unfold itemCreatedAt
    rw [hp, hu]
    exact Int.emod_eq_of_lt h0 h1
  · intro hp hu h0 h1
    rw [hstamp]
    unfold itemCreatedAt
    rw [hp, hu]
    exact Int.emod_eq_of_lt h0 h1

/-- An item with both times is stamped with the published one, an item with an updated
time only with that one, and an item with neither with the current time. -/
theorem itemToTextNote_createdAt_witness :
    publishedItem.UpdatedParsed = some { unixSec := 1609545600, nsec := 0 } ∧
      (itemToTextNote serializeFields sampleTimeLater (lit "ab") publishedItem).CreatedAt =
        1609459200 ∧
      ((itemToTextNote serializeFields sampleTimeLater (lit "ab") publishedItem).CreatedAt : Int) =
        1609459200 ∧
      ((itemToTextNote serializeFields sampleTimeLater (lit "ab") updatedItem).CreatedAt : Int) =
        1609545600 ∧
      ((itemToTextNote serializeFields sampleTimeLater (lit "ab") undatedItem).CreatedAt : Int) =
        1609460280 :=
  ⟨rfl, by decide,
    (itemToTextNote_createdAt serializeFields sampleTimeLater (lit "ab") publishedItem).2.1
      { unixSec := 1609459200, nsec := 0 } rfl (by decide) (by decide),
    (itemToTextNote_createdAt serializeFields sampleTimeLater (lit "ab") updatedItem).2.2.1
      { unixSec := 1609545600, nsec := 0 } rfl rfl (by decide) (by decide),
    (itemToTextNote_createdAt serializeFields sampleTimeLater (lit "ab") undatedItem).2.2.2
      rfl rfl (by decide) (by decide)⟩

/-! ## `feedToSetMetadata`: the profile message -/

/-- C4: the content of the profile message is the serialization of the map with `name`
the feed title, `about` the description, a blank line and the link, and `picture` the
image URL exactly when the feed has an image, and no other key; the message has the
metadata kind and no tags. -/
theorem feedToSetMetadata_content (jsonMarshal : GoMap → GoString)
    (serialize : Event → GoString) (now : Time) (pubkey : GoString) (feed : Feed) :
    (feedToSetMetadata jsonMarshal serialize now pubkey feed).Content =
        jsonMarshal
          ([(lit "name", feed.Title),
            (lit "about", feed.Description ++ blankLine ++ feed.Link)] ++
            (feed.Image.map fun image => (lit "picture", image.URL)).toList) ∧
      (∀ k, mapGet (feedMetadata feed) k =
        if k = lit "name" then some feed.Title
        else if k = lit "about" then some (feed.Description ++ blankLine ++ feed.Link)
        else if k = lit "picture" then feed.Image.map (fun image => image.URL)
        else none) ∧
      (feedToSetMetadata jsonMarshal serialize now pubkey feed).Kind = KindSetMetadata ∧
      (feedToSetMetadata jsonMarshal serialize now pubkey feed).Tags = [] := by
  have h1 : lit "name" ≠ lit "about" := by decide
  have h2 : lit "name" ≠ lit "picture" := by decide
  have h3 : lit "about" ≠ lit "picture" := by decide
  have hm : feedMetadata feed =
      [(lit "name", feed.Title),
        (lit "about", feed.Description ++ blankLine ++ feed.Link)] ++
        (feed.Image.map fun image => (lit "picture", image.URL)).toList := by
    unfold feedMetadata
    cases feed.Image <;> simp [mapSet, h1, h2, h3]
  refine ⟨?_, ?_, rfl, rfl⟩
  · show jsonMarshal (feedMetadata feed) = _
    rw [hm]
  · intro k
    have e1 : (lit "name" = k) = (k = lit "name") := propext eq_comm
    have e2 : (lit "about" = k) = (k = lit "about") := propext eq_comm
    have e3 : (lit "picture" = k) = (k = lit "picture") := propext eq_comm
    rw [hm]
    cases feed.Image
    all_goals simp only [mapGet, Option.map, Option.toList, List.append_nil,
      List.cons_append, List.nil_append, e1, e2, e3]
    all_goals split_ifs <;> rfl

/-! ## Message identifiers -/

/-- The identifier of a built message is the serialization of the message with its five
fields set and the identifier and signature still empty. -/
theorem builtMessage_ID (jsonMarshal : GoMap → GoString) (serialize : Event → GoString)
    (m : Event) (h : BuiltMessage jsonMarshal serialize m) :
    m.ID = serialize
      { PubKey := m.PubKey, CreatedAt := m.CreatedAt, Kind := m.Kind, Tags := m.Tags,
        Content := m.Content } := by
  rcases h with ⟨now, pubkey, feed, rfl⟩ | ⟨now, pubkey, item, rfl⟩ <;> rfl

/-- Equal fields give equal identifiers, whatever `Event.Serialize` computes. -/
theorem builtMessage_ID_congr (jsonMarshal : GoMap → GoString)
    (serialize : Event → GoString) (m1 m2 : Event)
    (h1 : BuiltMessage jsonMarshal serialize m1) (h2 : BuiltMessage jsonMarshal serialize m2)
    (h : idFields m1 = idFields m2) : m1.ID = m2.ID := by
  rw [builtMessage_ID jsonMarshal serialize m1 h1, builtMessage_ID jsonMarshal serialize m2 h2]
  simp only [idFields, Prod.mk.injEq] at h
  obtain ⟨hp, hc, hk, ht, hcont⟩ := h
  rw [hp, hc, hk, ht, hcont]

/-! ## `privateKeyFromFeed` -/

theorem hexEncodeToString_sample :
    hexEncodeToString [0x00, 0x1f, 0xa0, 0xff] = lit "001fa0ff" := by
  decide

/-- The digest of FIPS 180-4 for the message `abc`. -/
theorem sha256_abc :
    hexEncodeToString (sha256 (lit "abc")) =
      lit "ba7816bf8f01cfea414140de5dae2223b00361a396177a9cb410ff61f20015ad" := by
  decide

/-- The two digits of a byte, as ASCII codes: `0`-`9` are 48-57 and `a`-`f` are 97-102. -/
theorem hextable_digits :
    ∀ n, n < 256 →
      hextable.getD (n >>> 4) 0 =
          UInt8.ofNat (if n / 16 < 10 then 48 + n / 16 else 87 + n / 16) ∧
        hextable.getD (n &&& 0x0f) 0 =
          UInt8.ofNat (if n % 16 < 10 then 48 + n % 16 else 87 + n % 16) := by
  decide

theorem hexEncodeToString_cons (v : UInt8) (rest : GoString) :
    hexEncodeToString (v :: rest) =
      hextable.getD (v.toNat >>> 4) 0 :: hextable.getD (v.toNat &&& 0x0f) 0 ::
        hexEncodeToString rest := by
  simp [hexEncodeToString]

theorem hexEncodeToString_length (src : GoString) :
    (hexEncodeToString src).length = 2 * src.length := by
  induction src with
  | nil => rfl
  | cons v rest ih =>
    rw [hexEncodeToString_cons, List.length_cons, List.length_cons, List.length_cons, ih]
    omega

/-- Digits `2 * i` and `2 * i + 1` of the encoding are the high and the low nibble of
byte `i`. -/
theorem hexEncodeToString_getElem? (src : GoString) (i : Nat) (b : UInt8)
    (h : src[i]? = some b) :
    (hexEncodeToString src)[2 * i]? =
        some (UInt8.ofNat (if b.toNat / 16 < 10 then 48 + b.toNat / 16
          else 87 + b.toNat / 16)) ∧
      (hexEncodeToString src)[2 * i + 1]? =
        some (UInt8.ofNat (if b.toNat % 16 < 10 then 48 + b.toNat % 16
          else 87 + b.toNat % 16)) := by
  induction src generalizing i with
  | nil => simp at h
  | cons v rest ih =>
    rw [hexEncodeToString_cons]
    cases i with
    | zero =>
      simp only [List.getElem?_cons_zero, Option.some.injEq] at h
      subst h
      have hd := hextable_digits v.toNat (UInt8.toNat_lt v)
      simp only [Nat.mul_zero, Nat.zero_add, List.getElem?_cons_zero, List.getElem?_cons_succ]
      exact ⟨by rw [hd.1], by rw [hd.2]⟩
    | succ i =>
      simp only [List.getElem?_cons_succ] at h
      have h2 : 2 * (i + 1) = 2 * i + 1 + 1 := by omega
      rw [h2]
      simp only [List.getElem?_cons_succ]
      exact ih i h

/-- The key is the hex encoding of the tag of the URL under the secret. -/
theorem privateKeyFromFeed_hex (hmacSHA256 : GoString → GoString → GoString) (p : Process)
    (url : GoString) :
    privateKeyFromFeed hmacSHA256 p url = hexEncodeToString (hmacSHA256 p.Secret url) := by
  simp [privateKeyFromFeed, hmacNew, HMAC.Write, HMAC.Sum]

/-- A call of `parseFeed` leaves the secret of the process as it was. -/
theorem parseFeed_Secret (parseURL : Time → GoString → Except GoError Feed) (p : Process)
    (now : Time) (url : GoString) : (parseFeed parseURL p now url).process.Secret = p.Secret := by
  unfold parseFeed
  cases p.feedCache.Get now url with
  | some feed => rfl
  | none =>
    cases parseURL now url with
    | error err => rfl
    | ok feed => rfl

/-- C6: the private key of a feed is the hex encoding of the HMAC-SHA256 tag of the bytes
of the URL under the secret: two lower-case hex digits per byte of the tag, the high
nibble first.  Two processes with the same secret give the same key for the same URL,
whatever their feed caches hold, and a call of `parseFeed` in between does not change
the key. -/
theorem privateKeyFromFeed_eq (hmacSHA256 : GoString → GoString → GoString)
    (parseURL : Time → GoString → Except GoError Feed) (p1 p2 : Process) (now : Time)
    (url1 url2 other : GoString) (hsecret : p1.Secret = p2.Secret) (hurl : url1 = url2) :
    (privateKeyFromFeed hmacSHA256 p1 url1).length =
        2 * (hmacSHA256 p1.Secret url1).length ∧
      (∀ (i : Nat) (b : UInt8), (hmacSHA256 p1.Secret url1)[i]? = some b →
        (privateKeyFromFeed hmacSHA256 p1 url1)[2 * i]? =
            some (UInt8.ofNat (if b.toNat / 16 < 10 then 48 + b.toNat / 16
              else 87 + b.toNat / 16)) ∧
          (privateKeyFromFeed hmacSHA256 p1 url1)[2 * i + 1]? =
            some (UInt8.ofNat (if b.toNat % 16 < 10 then 48 + b.toNat % 16
              else 87 + b.toNat % 16))) ∧
      privateKeyFromFeed hmacSHA256 p1 url1 = privateKeyFromFeed hmacSHA256 p2 url2 ∧
      privateKeyFromFeed hmacSHA256 (parseFeed parseURL p1 now other).process url1 =
        privateKeyFromFeed hmacSHA256 p1 url1 := by
  refine ⟨?_, ?_, ?_, ?_⟩
  · rw [privateKeyFromFeed_hex, hexEncodeToString_length]
  · intro i b hb
    rw [privateKeyFromFeed_hex]
    exact hexEncodeToString_getElem? _ i b hb
  · rw [privateKeyFromFeed_hex, privateKeyFromFeed_hex, hsecret, hurl]
  · rw [privateKeyFromFeed_hex, privateKeyFromFeed_hex, parseFeed_Secret]

/-- Test case 2 of RFC 4231 (key `Jefe`): the key computed with HMAC-SHA256 is the tag of
the RFC in hex, 64 digits, in a process with an empty cache, in one with a filled cache,
and after a call of `parseFeed`. -/
theorem privateKeyFromFeed_eq_witness :
    jefeProcess.Secret = jefeProcess2.Secret ∧
      jefeProcess.feedCache ≠ jefeProcess2.feedCache ∧
      privateKeyFromFeed hmacSHA256Tag jefeProcess jefeData =
        lit "5bdcc146bf60754e6a042426089575c75a003f089d2739839dec58b964ec3843" ∧
      (privateKeyFromFeed hmacSHA256Tag jefeProcess jefeData).length =
        2 * (hmacSHA256Tag jefeProcess.Secret jefeData).length ∧
      privateKeyFromFeed hmacSHA256Tag jefeProcess jefeData =
        privateKeyFromFeed hmacSHA256Tag jefeProcess2 jefeData ∧
      privateKeyFromFeed hmacSHA256Tag
          (parseFeed sampleParseURL jefeProcess sampleTime sampleURL).process jefeData =
        privateKeyFromFeed hmacSHA256Tag jefeProcess jefeData :=
  ⟨rfl, by decide, by decide,
    (privateKeyFromFeed_eq hmacSHA256Tag sampleParseURL jefeProcess jefeProcess2 sampleTime
      jefeData jefeData sampleURL rfl rfl).1,
    (privateKeyFromFeed_eq hmacSHA256Tag sampleParseURL jefeProcess jefeProcess2 sampleTime
      jefeData jefeData sampleURL rfl rfl).2.2.1,
    (privateKeyFromFeed_eq hmacSHA256Tag sampleParseURL jefeProcess jefeProcess2 sampleTime
      jefeData jefeData sampleURL rfl rfl).2.2.2⟩

/-! ## `getFeedURL` -/

/-- The function `stringsContains` decides whether `sub` is a contiguous part of `s`. -/
theorem stringsContains_iff (s sub : GoString) : stringsContains s sub = true ↔ sub <:+: s := by
  induction s with
  | nil => simp [stringsContains, List.isEmpty_iff]
  | cons c s ih =>
    rw [stringsContains, Bool.or_eq_true, ih, List.infix_cons_iff, List.isPrefixOf_iff_prefix]

/-- The first loop of `getFeedURL` returns the URL as soon as one type matches. -/
theorem forRange_probe (ct url : GoString) (ts : List GoString) :
    forRange ts (fun typ => if stringsContains ct typ then some url else none) =
      if ts.any (fun typ => stringsContains ct typ) then some url else none := by
  induction ts with
  | nil => rfl
  | cons t ts ih =>
    simp only [forRange, List.any_cons]
    by_cases h : stringsContains ct t = true
    · simp [h]
    · simp [h, ih]

/-- C7: when the content type of the HEAD response does not contain `text/html`, the
result is the URL itself if the request succeeded with a status below 300 and the
content type contains `rss+xml`, `atom+xml` or `feed+json`, and is empty otherwise. -/
theorem getFeedURL_direct (web : Web) (url : GoString)
    (hnothtml : ∀ resp, web.head url = .ok resp →
      stringsContains resp.ContentType (lit "text/html") = false) :
    getFeedURL web url =
      match web.head url with
      | .ok resp =>
        if resp.StatusCode < 300 ∧
            (stringsContains resp.ContentType (lit "rss+xml") = true ∨
              stringsContains resp.ContentType (lit "atom+xml") = true ∨
              stringsContains resp.ContentType (lit "feed+json") = true) then url
        else []
      | .error _ => [] := by
  unfold getFeedURL
  cases hh : web.head url with
  | error e => rfl
  | ok resp =>
    have hct := hnothtml resp hh
    simp only [forRange_probe, types, List.any_cons, List.any_nil, Bool.or_false, hct]
    by_cases hs : resp.StatusCode ≥ 300
    · have : ¬ resp.StatusCode < 300 := by omega
      simp [hs, this]
    · have : resp.StatusCode < 300 := by omega
      simp only [hs, this, if_false, true_and]
      cases stringsContains resp.ContentType (lit "rss+xml") <;>
        cases stringsContains resp.ContentType (lit "atom+xml") <;>
        cases stringsContains resp.ContentType (lit "feed+json") <;> simp

/-- A 200 response with an RSS content type, and a 404 response. -/
theorem getFeedURL_direct_witness :
    (∀ resp, sampleWebRSS.head sampleURL = .ok resp →
        stringsContains resp.ContentType (lit "text/html") = false) ∧
      getFeedURL sampleWebRSS sampleURL = sampleURL ∧
      (∀ resp, sampleWeb404.head sampleURL = .ok resp →
        stringsContains resp.ContentType (lit "text/html") = false) ∧
      getFeedURL sampleWeb404 sampleURL = [] :=
  ⟨fun resp h => by cases h; decide,
    getFeedURL_direct sampleWebRSS sampleURL (fun resp h => by cases h; decide),
    fun resp h => by cases h; decide,
    getFeedURL_direct sampleWeb404 sampleURL (fun resp h => by cases h; decide)⟩

/-- The href read for a type is empty when no link of that type has a non-empty href. -/
theorem selectionAttr_findLinks_empty (doc : Document) (typ : GoString)
    (hno : ∀ n ∈ doc, n.tag = lit "link" →
      (∃ v, n.attr (lit "type") = some v ∧ stringsContains v typ = true) →
      n.attr (lit "href") = none ∨ n.attr (lit "href") = some []) :
    (selectionAttr (findLinks doc typ) (lit "href")).1 = [] := by
  cases hsel : findLinks doc typ with
  | nil => rfl
  | cons n rest =>
    have hmem : n ∈ findLinks doc typ := by rw [hsel]; exact List.mem_cons_self _ _
    unfold findLinks at hmem
    rw [List.mem_filter] at hmem
    obtain ⟨hdoc, hpred⟩ := hmem
    rw [Bool.and_eq_true, decide_eq_true_eq] at hpred
    obtain ⟨htag, htype⟩ := hpred
    have hty : ∃ v, n.attr (lit "type") = some v ∧ stringsContains v typ = true := by
      cases hattr : n.attr (lit "type") with
      | none => rw [hattr] at htype; exact absurd htype (by simp)
      | some v => rw [hattr] at htype; exact ⟨v, rfl, htype⟩
    rcases hno n hdoc htag hty with h | h <;> simp [selectionAttr, h]

/-- C10: when the HEAD response is an HTML document (status below 300, content type
with `text/html` and none of the feed types) and the page is fetched and parsed, the
result is read off the links of type `rss+xml` alone: it is the href of the first such
link, made absolute, and it is empty when no such link has a non-empty href, whatever
links of the later types the page has. -/
theorem getFeedURL_first_type_only (web : Web) (url : GoString) (resp page : Response)
    (doc : Document) (hhead : web.head url = .ok resp) (hstatus : resp.StatusCode < 300)
    (hnofeed : ∀ typ ∈ types, stringsContains resp.ContentType typ = false)
    (hhtml : stringsContains resp.ContentType (lit "text/html") = true)
    (hget : web.get url = .ok page) (hpage : page.StatusCode < 300)
    (hdoc : web.newDocument page.Body = .ok doc) :
    getFeedURL web url =
        (if (selectionAttr (findLinks doc (lit "rss+xml")) (lit "href")).1 = [] then []
          else if stringsHasPrefix
              (selectionAttr (findLinks doc (lit "rss+xml")) (lit "href")).1 (lit "http") then
            (selectionAttr (findLinks doc (lit "rss+xml")) (lit "href")).1
          else (web.urljoin url
            (selectionAttr (findLinks doc (lit "rss+xml")) (lit "href")).1).1) ∧
      ((∀ n ∈ doc, n.tag = lit "link" →
          (∃ v, n.attr (lit "type") = some v ∧ stringsContains v (lit "rss+xml") = true) →
          n.attr (lit "href") = none ∨ n.attr (lit "href") = some []) →
        getFeedURL web url = []) := by
  have hany : types.any (fun typ => stringsContains resp.ContentType typ) = false := by
    rw [List.any_eq_false]
    intro typ htyp
    rw [hnofeed typ htyp]
    simp
  have hs1 : ¬ resp.StatusCode ≥ 300 := by omega
  have hs2 : ¬ page.StatusCode ≥ 300 := by omega
  have hmain : getFeedURL web url =
      (if (selectionAttr (findLinks doc (lit "rss+xml")) (lit "href")).1 = [] then []
        else if stringsHasPrefix
            (selectionAttr (findLinks doc (lit "rss+xml")) (lit "href")).1 (lit "http") then
          (selectionAttr (findLinks doc (lit "rss+xml")) (lit "href")).1
        else (web.urljoin url
          (selectionAttr (findLinks doc (lit "rss+xml")) (lit "href")).1).1) := by
    unfold getFeedURL
    simp only [hhead, hs1, if_false, forRange_probe, hany, hhtml, if_true, hget, hs2, hdoc]
    simp only [types, forRange, linkBody]
    by_cases h1 : (selectionAttr (findLinks doc (lit "rss+xml")) (lit "href")).1 = []
    · simp [h1]
    · by_cases h2 : stringsHasPrefix
          (selectionAttr (findLinks doc (lit "rss+xml")) (lit "href")).1 (lit "http") = true
      · simp [h1, h2]
      · simp [h1, h2]
  refine ⟨hmain, ?_⟩
  intro hno
  rw [hmain, selectionAttr_findLinks_empty doc (lit "rss+xml") hno]
  rfl

/-- An HTML page whose only feed link is an Atom link with an href. -/
theorem getFeedURL_first_type_only_witness :
    (∃ n ∈ sampleAtomPage, n.tag = lit "link" ∧
        n.attr (lit "type") = some (lit "application/atom+xml") ∧
        n.attr (lit "href") = some (lit "/atom.xml")) ∧
      getFeedURL sampleWebHTML sampleURL = [] :=
  ⟨⟨_, List.mem_cons_of_mem _ (List.mem_cons_self _ _), by decide, by decide, by decide⟩,
    (getFeedURL_first_type_only sampleWebHTML sampleURL
      { StatusCode := 200, ContentType := lit "text/html; charset=utf-8", Body := [] }
      { StatusCode := 200, ContentType := lit "text/html; charset=utf-8", Body := lit "<html>" }
      sampleAtomPage rfl (by decide) (by decide) (by decide) rfl (by decide) rfl).2
      (by decide)⟩

/-! ## `parseFeed` -/

theorem clearContentAt_getElem? (items : List Item) (i j : Nat) :
    (clearContentAt items i)[j]? =
      if i = j then items[j]?.map (fun item => { item with Content := [] }) else items[j]? := by
  unfold clearContentAt
  cases h : items[i]? with
  | none =>
    by_cases hij : i = j
    · subst hij; simp [h]
    · simp [hij]
  | some item =>
    by_cases hij : i = j
    · subst hij
      have hlt : i < items.length := by
        rcases List.getElem?_eq_some_iff.mp h with ⟨hlt, _⟩
        exact hlt
      simp [h, List.getElem?_set, hlt]
    · simp [List.getElem?_set, hij]

theorem foldl_clearContentAt_getElem? (items : List Item) (k j : Nat) :
    ((List.range k).foldl clearContentAt items)[j]? =
      if j < k then items[j]?.map (fun item => { item with Content := [] }) else items[j]? := by
  induction k with
  | zero => simp
  | succ k ih =>
    rw [List.range_succ, List.foldl_append, List.foldl_cons, List.foldl_nil,
      clearContentAt_getElem?, ih]
    by_cases h1 : k = j
    · subst h1; simp
    · by_cases h2 : j < k
      · have : j < k + 1 := by omega
        simp [h1, h2, this]
      · have : ¬ j < k + 1 := by omega
        simp [h1, h2, this]

/-- The loop of lines 85-87 clears the content of every item and leaves the rest. -/
theorem clearContents_eq_map (items : List Item) :
    clearContents items = items.map (fun item => { item with Content := [] }) := by
  apply List.ext_getElem?
  intro j
  rw [clearContents, foldl_clearContentAt_getElem?, List.getElem?_map]
  by_cases h : j < items.length
  · simp [h]
  · have : items[j]? = none := by simp at h; simp [h]
    simp [this]

/-- On a miss with a successful fetch, `parseFeed` returns the stripped feed, stores it
and fetches once. -/
theorem parseFeed_miss (parseURL : Time → GoString → Except GoError Feed) (p : Process)
    (now : Time) (url : GoString) (feed : Feed) (hmiss : p.feedCache.Get now url = none)
    (hfetch : parseURL now url = .ok feed) :
    parseFeed parseURL p now url =
      { result := .ok (stripFeed feed)
        process := { p with feedCache := p.feedCache.Set now url (stripFeed feed) }
        fetched := [url] } := by
  simp only [parseFeed, hmiss, hfetch, clearContents_eq_map, stripFeed]

/-- On a hit `parseFeed` returns the cached feed, fetches nothing and changes nothing. -/
theorem parseFeed_hit (parseURL : Time → GoString → Except GoError Feed) (p : Process)
    (now : Time) (url : GoString) (feed : Feed) (hhit : p.feedCache.Get now url = some feed) :
    parseFeed parseURL p now url = { result := .ok feed, process := p, fetched := [] } := by
  simp only [parseFeed, hhit]

/-- The entries after a `Set`, in a cache that can hold an entry. -/
theorem Cache.Set_entries (c : Cache) (now : Time) (key : GoString) (value : Feed)
    (hcap : 0 < c.maxEntries) :
    (c.Set now key value).entries =
      { key := key, value := value, insertedAt := now } ::
        (c.entries.filter (fun e => e.key ≠ key)).take (c.maxEntries - 1) := by
  obtain ⟨n, hn⟩ : ∃ n, c.maxEntries = n + 1 := ⟨c.maxEntries - 1, by omega⟩
  simp [Cache.Set, hn]

/-- A value that was `Set` is the value `Get` finds until the entry is older than the
time-to-live. -/
theorem Cache.Get_Set (c : Cache) (t0 t1 : Time) (key : GoString) (value : Feed)
    (hcap : 0 < c.maxEntries) (hfresh : t1.Sub t0 ≤ c.expiration) :
    (c.Set t0 key value).Get t1 key = some value := by
  have hexp : (c.Set t0 key value).expiration = c.expiration := rfl
  have hnot : ¬ t1.Sub t0 > c.expiration := not_lt.mpr hfresh
  simp [Cache.Get, Cache.Set_entries c t0 key value hcap, hexp, hnot]

/-- A hit right after a `Set` of the same key returns the value that was set. -/
theorem Cache.Get_Set_of_isSome (c : Cache) (t0 t1 : Time) (key : GoString) (value : Feed)
    (hheld : ((c.Set t0 key value).Get t1 key).isSome = true) :
    (c.Set t0 key value).Get t1 key = some value := by
  have hcap : 0 < c.maxEntries := by
    by_contra hzero
    have h0 : c.maxEntries = 0 := by omega
    simp [Cache.Get, Cache.Set, h0] at hheld
  have hexp : (c.Set t0 key value).expiration = c.expiration := rfl
  simp only [Cache.Get, Cache.Set_entries c t0 key value hcap, hexp, List.find?_cons,
    decide_True] at hheld ⊢
  by_cases hold : t1.Sub t0 > c.expiration
  · simp [hold] at hheld
  · simp [hold]

/-- C8: when `parseFeed` misses the cache and fetches the feed at `t0`, and is called
again for the same URL at `t1` while the cache still holds the entry, the second call
returns the feed the first call returned and fetches nothing: the two calls fetch the
URL once. -/
theorem parseFeed_twice (parseURL : Time → GoString → Except GoError Feed) (p : Process)
    (t0 t1 : Time) (url : GoString) (feed : Feed)
    (hmiss : p.feedCache.Get t0 url = none) (hfetch : parseURL t0 url = .ok feed)
    (hheld : ((parseFeed parseURL p t0 url).process.feedCache.Get t1 url).isSome = true) :
    (parseFeed parseURL p t0 url).result = .ok (stripFeed feed) ∧
      (parseFeed parseURL (parseFeed parseURL p t0 url).process t1 url).result =
        (parseFeed parseURL p t0 url).result ∧
      (parseFeed parseURL (parseFeed parseURL p t0 url).process t1 url).fetched = [] ∧
      (parseFeed parseURL p t0 url).fetched ++
        (parseFeed parseURL (parseFeed parseURL p t0 url).process t1 url).fetched = [url] := by
  rw [parseFeed_miss parseURL p t0 url feed hmiss hfetch] at hheld ⊢
  have hget : (p.feedCache.Set t0 url (stripFeed feed)).Get t1 url = some (stripFeed feed) :=
    Cache.Get_Set_of_isSome p.feedCache t0 t1 url (stripFeed feed) hheld
  rw [parseFeed_hit parseURL _ t1 url (stripFeed feed) hget]
  exact ⟨rfl, rfl, rfl, rfl⟩

/-- The sample process fetches the sample feed once over two calls 18 minutes apart. -/
theorem parseFeed_twice_witness :
    sampleProcess.feedCache.Get sampleTime sampleURL = none ∧
      sampleParseURL sampleTime sampleURL = .ok sampleFeed ∧
      sampleTimeLater.Sub sampleTime = minute * 18 ∧
      ((parseFeed sampleParseURL sampleProcess sampleTime sampleURL).process.feedCache.Get
        sampleTimeLater sampleURL).isSome = true ∧
      (parseFeed sampleParseURL sampleProcess sampleTime sampleURL).result =
        .ok (stripFeed sampleFeed) ∧
      (parseFeed sampleParseURL
          (parseFeed sampleParseURL sampleProcess sampleTime sampleURL).process
          sampleTimeLater sampleURL).result =
        (parseFeed sampleParseURL sampleProcess sampleTime sampleURL).result ∧
      (parseFeed sampleParseURL
          (parseFeed sampleParseURL sampleProcess sampleTime sampleURL).process
          sampleTimeLater sampleURL).fetched = [] ∧
      (parseFeed sampleParseURL sampleProcess sampleTime sampleURL).fetched ++
        (parseFeed sampleParseURL
          (parseFeed sampleParseURL sampleProcess sampleTime sampleURL).process
          sampleTimeLater sampleURL).fetched = [sampleURL] :=
  ⟨rfl, rfl, by decide, by decide,
    parseFeed_twice sampleParseURL sampleProcess sampleTime sampleTimeLater sampleURL sampleFeed
      rfl rfl (by decide)⟩

/-- What the stripped feed is, field by field: as many items, each the parsed item with
an empty content, and the other fields of the feed as parsed. -/
theorem stripFeed_fields (feed : Feed) :
    (stripFeed feed).Items.length = feed.Items.length ∧
      (∀ item ∈ (stripFeed feed).Items, item.Content = []) ∧
      (∀ (i : Nat) (item : Item), feed.Items[i]? = some item →
        (stripFeed feed).Items[i]? = some { item with Content := [] }) ∧
      { stripFeed feed with Items := feed.Items } = feed := by
  refine ⟨by simp [stripFeed], ?_, ?_, by cases feed; rfl⟩
  · intro item hitem
    simp only [stripFeed, List.mem_map] at hitem
    obtain ⟨item0, _, rfl⟩ := hitem
    rfl
  · intro i item hi
    simp [stripFeed, hi]

/-- C9: an entry that a call of `parseFeed` adds to the feed cache is stored under the
URL of the call and holds the feed just parsed with the content of every item empty:
as many items, in the same order, each with its other fields as parsed, and the other
fields of the feed as parsed; the call returns that same stripped feed.  And on a miss
with a successful fetch the call does add that entry. -/
theorem parseFeed_stores_stripped (parseURL : Time → GoString → Except GoError Feed)
    (p : Process) (now : Time) (url : GoString) :
    (∀ e ∈ (parseFeed parseURL p now url).process.feedCache.entries,
      e ∉ p.feedCache.entries →
      ∃ feed, parseURL now url = .ok feed ∧
        e = { key := url, value := stripFeed feed, insertedAt := now } ∧
        (parseFeed parseURL p now url).result = .ok e.value ∧
        e.value.Items.length = feed.Items.length ∧
        (∀ item ∈ e.value.Items, item.Content = []) ∧
        (∀ (i : Nat) (item : Item), feed.Items[i]? = some item →
          e.value.Items[i]? = some { item with Content := [] }) ∧
        { e.value with Items := feed.Items } = feed) ∧
      (∀ feed, p.feedCache.Get now url = none → parseURL now url = .ok feed →
        0 < p.feedCache.maxEntries →
        ({ key := url, value := stripFeed feed, insertedAt := now } : CacheEntry) ∈
            (parseFeed parseURL p now url).process.feedCache.entries ∧
          (parseFeed parseURL p now url).result = .ok (stripFeed feed)) := by
  constructor
  · intro e hin hnew
    cases hget : p.feedCache.Get now url with
    | some cached =>
      rw [parseFeed_hit parseURL p now url cached hget] at hin
      exact absurd hin hnew
    | none =>
      cases hfetch : parseURL now url with
      | error err =>
        simp only [parseFeed, hget, hfetch] at hin
        exact absurd hin hnew
      | ok feed =>
        rw [parseFeed_miss parseURL p now url feed hget hfetch] at hin ⊢
        have hmem := List.mem_of_mem_take hin
        rw [List.mem_cons] at hmem
        rcases hmem with heq | hold
        · subst heq
          obtain ⟨hlen, hcontent, hitems, hrest⟩ := stripFeed_fields feed
          exact ⟨feed, rfl, rfl, rfl, hlen, hcontent, hitems, hrest⟩
        · exact absurd (List.mem_of_mem_filter hold) hnew
  · intro feed hget hfetch hcap
    rw [parseFeed_miss parseURL p now url feed hget hfetch]
    refine ⟨?_, rfl⟩
    show _ ∈ (p.feedCache.Set now url (stripFeed feed)).entries
    rw [Cache.Set_entries p.feedCache now url (stripFeed feed) hcap]
    exact List.mem_cons_self _ _

/-- The sample process stores the stripped sample feed, whose parsed items had a
content, and returns it. -/
theorem parseFeed_stores_stripped_witness :
    sampleProcess.feedCache.Get sampleTime sampleURL = none ∧
      sampleParseURL sampleTime sampleURL = .ok sampleFeed ∧
      0 < sampleProcess.feedCache.maxEntries ∧
      (sampleFeed.Items.map fun item => item.Content) =
        [lit "<p>first post</p>", lit "<p>first post</p>"] ∧
      ({ key := sampleURL, value := stripFeed sampleFeed, insertedAt := sampleTime } :
          CacheEntry) ∈
        (parseFeed sampleParseURL sampleProcess sampleTime sampleURL).process.feedCache.entries ∧
      (parseFeed sampleParseURL sampleProcess sampleTime sampleURL).result =
        .ok (stripFeed sampleFeed) ∧
      ((stripFeed sampleFeed).Items.map fun item => item.Content) = [[], []] :=
  ⟨rfl, rfl, by decide, by decide,
    ((parseFeed_stores_stripped sampleParseURL sampleProcess sampleTime sampleURL).2
      sampleFeed rfl rfl (by decide)).1,
    ((parseFeed_stores_stripped sampleParseURL sampleProcess sampleTime sampleURL).2
      sampleFeed rfl rfl (by decide)).2,
    by decide⟩

end Rsslay
